import Mathlib

/-!
Verification of the scripture-OCR core of this repository against its
natural-language specification.  The Python sources are shallowly embedded:

* `backend/scripts/language_detector.py` → namespace `LangDetect`
* `extract_hebrew_from_bhs.py`          → namespace `BHSExtract`
* `verify_ocr_accuracy.py`              → namespace `OCRVerify`
* `extract_scriptures_ocr.py`           → namespace `ScriptOCR`

Python strings are Lean `String`s (sequences of Unicode scalar values, as in
CPython), `re.findall` over a `[range]+` character class is maximal-run
extraction, Python numbers are `Nat`/`ℚ`, and Python `None`-able arguments are
`Option`s.  External libraries (difflib's sequence matcher, PIL's image
operations) are not this repository's code and enter as explicit function
parameters of the embedded definitions.
-/

/-! ## Shared list/string utilities (embedding Python primitives) -/

/-- `startsWithL n h` ⟺ the list `n` is an initial segment of `h`. -/
def startsWithL : List Char → List Char → Bool
  | [], _ => true
  | _ :: _, [] => false
  | a :: as, b :: bs => a == b && startsWithL as bs

/-- `containsSub n h` ⟺ `n` occurs contiguously inside `h`;
embeds Python's `n in h` substring test (note `"" in h` is `True`). -/
def containsSub : List Char → List Char → Bool
  | n, [] => startsWithL n []
  | n, h :: t => startsWithL n (h :: t) || containsSub n t

/-- Accumulator-based maximal-run extraction: `runsAux p cs acc` returns the
maximal runs of `p`-characters in `cs`, with `acc` the (reversed) run in
progress.  Embeds `re.findall` of a `[class]+` pattern. -/
def runsAux (p : Char → Bool) : List Char → List Char → List String
  | [], acc => if acc.isEmpty then [] else [String.mk acc.reverse]
  | c :: cs, acc =>
    if p c then runsAux p cs (c :: acc)
    else if acc.isEmpty then runsAux p cs []
    else String.mk acc.reverse :: runsAux p cs []

/-- `findallRuns p s` = all maximal runs of `p`-characters in `s`,
i.e. `PATTERN.findall(s)` for the character-class pattern decided by `p`. -/
def findallRuns (p : Char → Bool) (s : String) : List String :=
  runsAux p s.toList []

/-- Python `str.split()`: maximal runs of non-whitespace characters. -/
def pySplitWs (s : String) : List String :=
  findallRuns (fun c => !c.isWhitespace) s

/-- Python truthiness of a string: falsy iff empty. -/
def strTruthy (s : String) : Bool := !s.toList.isEmpty

/-! ## `backend/scripts/language_detector.py` -/

namespace LangDetect

/-- `HEBREW_PATTERN = [֐-׿]+` (character class). -/
def isHebrewChar (c : Char) : Bool :=
  0x0590 ≤ c.toNat && c.toNat ≤ 0x05FF

/-- `GREEK_PATTERN = [Ͱ-Ͽἀ-῿]+` (character class). -/
def isGreekChar (c : Char) : Bool :=
  (0x0370 ≤ c.toNat && c.toNat ≤ 0x03FF) || (0x1F00 ≤ c.toNat && c.toNat ≤ 0x1FFF)

/-- `IMPERIAL_ARAMAIC_PATTERN = [\U00010840-\U0001085F]+` (character class). -/
def isImperialAramaicChar (c : Char) : Bool :=
  0x10840 ≤ c.toNat && c.toNat ≤ 0x1085F

/-- One entry of `ARAMAIC_PASSAGES`: chapter ranges and a verse set
(the verse set is represented by its decidable membership test). -/
structure PassageInfo where
  chapters : List (Nat × Nat × Nat × Nat)
  verses : Nat → Nat → Bool

/-- The `ezra` verse set:
`{(4,8..24)} ∪ {(5,1..17)} ∪ {(6,1..18)} ∪ {(7,12..26)}`. -/
def ezraVerses (c v : Nat) : Bool :=
  (c == 4 && decide (8 ≤ v) && decide (v ≤ 24)) ||
  (c == 5 && decide (1 ≤ v) && decide (v ≤ 17)) ||
  (c == 6 && decide (1 ≤ v) && decide (v ≤ 18)) ||
  (c == 7 && decide (12 ≤ v) && decide (v ≤ 26))

/-- `ARAMAIC_PASSAGES`: known Biblical Aramaic sections, keyed by book. -/
def ARAMAIC_PASSAGES : List (String × PassageInfo) :=
  [("daniel", ⟨[(2, 4, 7, 28)], fun _ _ => false⟩),
   ("ezra", ⟨[], ezraVerses⟩),
   ("jeremiah", ⟨[], fun c v => c == 10 && v == 11⟩),
   ("genesis", ⟨[], fun c v => c == 31 && v == 47⟩)]

/-- `book.lower().replace(' ', '').replace('-', '')`. -/
def normalizeBook (b : String) : String :=
  String.mk ((b.toList.map Char.toLower).filter (fun c => !(c == ' ' || c == '-')))

/-- The `book_map` variation table applied after normalization. -/
def bookMap (b : String) : String :=
  if b == "1samuel" then "samuel1"
  else if b == "2samuel" then "samuel2"
  else if b == "1kings" then "kings1"
  else if b == "2kings" then "kings2"
  else if b == "1chronicles" then "chronicles1"
  else if b == "2chronicles" then "chronicles2"
  else b

/-- Lookup of the normalized book in `ARAMAIC_PASSAGES`. -/
def lookupPassage (book : String) : Option PassageInfo :=
  (ARAMAIC_PASSAGES.find? (fun pr => pr.1 == bookMap (normalizeBook book))).map (·.2)

/-- The chapter-range loop of `is_aramaic_passage`, with the source's
`if`/`elif` chain per tuple `(ch_start, v_start, ch_end, v_end)`. -/
def checkRangesCode (rs : List (Nat × Nat × Nat × Nat)) (chapter verse : Nat) : Bool :=
  rs.any (fun r =>
    let cs := r.1; let vs := r.2.1; let ce := r.2.2.1; let ve := r.2.2.2
    if cs ≤ chapter && chapter ≤ ce then
      if chapter == cs && decide (vs ≤ verse) then true
      else if chapter == ce && decide (verse ≤ ve) then true
      else decide (cs < chapter) && decide (chapter < ce)
    else false)

/-- `is_aramaic_passage(book, chapter, verse)`. -/
def is_aramaic_passage (book : String) (chapter verse : Nat) : Bool :=
  match lookupPassage book with
  | none => false
  | some info => info.verses chapter verse || checkRangesCode info.chapters chapter verse

/-- The chapter-range rule exactly as the spec words it: any chapter strictly
between `chStart` and `chEnd` counts; `chapter == chStart` counts if
`verse ≥ vStart`; `chapter == chEnd` counts if `verse ≤ vEnd`. -/
def checkRangesSpec (rs : List (Nat × Nat × Nat × Nat)) (chapter verse : Nat) : Bool :=
  rs.any (fun r =>
    let cs := r.1; let vs := r.2.1; let ce := r.2.2.1; let ve := r.2.2.2
    (decide (cs < chapter) && decide (chapter < ce)) ||
    (chapter == cs && decide (vs ≤ verse)) ||
    (chapter == ce && decide (verse ≤ ve)))

/-- `is_known_passage` as the spec describes it: membership in the book's
verse set, or the spec's chapter-range rule. -/
def aramaicPassageSpec (book : String) (chapter verse : Nat) : Bool :=
  match lookupPassage book with
  | none => false
  | some info => info.verses chapter verse || checkRangesSpec info.chapters chapter verse

/-- `ARAMAIC_VOCABULARY`, in source order. -/
def ARAMAIC_VOCABULARY : List String :=
  ["דִּי", "די", "מַלְכָּא", "מלכא", "אֱלָהּ", "אלה", "קֳדָם", "קדם",
   "כְּעַן", "כען", "לָא", "לא", "הֲוָא", "הוא"]

/-- `detect_aramaic_vocabulary(text) -> (is_likely_aramaic, matched, confidence)`. -/
def detect_aramaic_vocabulary (text : String) : Bool × List String × ℚ :=
  if text.toList.isEmpty then (false, [], 0)
  else
    let matched := ARAMAIC_VOCABULARY.filter (fun w => containsSub w.toList text.toList)
    if matched.isEmpty then (false, [], 0)
    else (decide (1 ≤ matched.length), matched, min ((matched.length : ℚ) / 3) 1)

/-- The dictionary `detect_language` returns (the spec's `ScriptSpan`). -/
structure DetectResult where
  language : String
  confidence : ℚ
  matchesList : List String
  hebrew_count : Nat
  greek_count : Nat
  aramaic_count : Nat
  aramaic_words : List String
  is_known_aramaic_passage : Bool
deriving DecidableEq, Repr

/-- The early-return value for empty or non-string input. -/
def unknownSpan : DetectResult :=
  { language := "unknown", confidence := 0, matchesList := [], hebrew_count := 0,
    greek_count := 0, aramaic_count := 0, aramaic_words := [],
    is_known_aramaic_passage := false }

/-- `if book and chapter and verse: is_known_aramaic = is_aramaic_passage(...)`,
with Python truthiness of the three optional hints. -/
def is_known_hint (book : Option String) (chapter verse : Option Nat) : Bool :=
  match book, chapter, verse with
  | some b, some c, some v => strTruthy b && c != 0 && v != 0 && is_aramaic_passage b c v
  | _, _, _ => false

/-- `detect_language(text, book, chapter, verse)`.  `text = none` stands for
Python `None` or any non-string argument (both fail the
`not text or not isinstance(text, str)` guard the same way). -/
def detect_language (text : Option String) (book : Option String)
    (chapter verse : Option Nat) : DetectResult :=
  match text with
  | none => unknownSpan
  | some s =>
    if s.toList.isEmpty then unknownSpan
    else
      let hebrew_matches := findallRuns isHebrewChar s
      let greek_matches := findallRuns isGreekChar s
      let imperial_matches := findallRuns isImperialAramaicChar s
      let hebrew_count := hebrew_matches.length
      let greek_count := greek_matches.length
      let imperial_count := imperial_matches.length
      let is_known := is_known_hint book chapter verse
      let vocab := detect_aramaic_vocabulary s
      let has_vocab := vocab.1
      let aramaic_words := vocab.2.1
      let vocab_conf := vocab.2.2
      let lmc : String × List String × ℚ × Nat :=
        if is_known && decide (0 < hebrew_count) then
          ("aramaic", hebrew_matches, 95 / 100, hebrew_count)
        else if 0 < imperial_count then
          let aramaic_matches := hebrew_matches ++ imperial_matches
          let ac := aramaic_matches.length
          let total := hebrew_count + greek_count + imperial_count
          ("aramaic", aramaic_matches,
            if 0 < total then (ac : ℚ) / total else 1, ac)
        else if has_vocab && decide (0 < hebrew_count) && decide ((1 : ℚ) / 2 < vocab_conf) then
          ("aramaic", hebrew_matches, vocab_conf, hebrew_count)
        else if 0 < hebrew_count then
          let total := hebrew_count + greek_count
          ("hebrew", hebrew_matches,
            if 0 < total then (hebrew_count : ℚ) / total else 1, 0)
        else if 0 < greek_count then
          let total := hebrew_count + greek_count
          ("greek", greek_matches,
            if 0 < total then (greek_count : ℚ) / total else 1, 0)
        else
          ("unknown", [], 0, 0)
      { language := lmc.1, confidence := lmc.2.2.1, matchesList := lmc.2.1,
        hebrew_count := hebrew_count, greek_count := greek_count,
        aramaic_count := lmc.2.2.2, aramaic_words := aramaic_words,
        is_known_aramaic_passage := is_known }

end LangDetect

/-! ## `extract_hebrew_from_bhs.py` (the VerseLocator) -/

namespace BHSExtract

/-- Character class of this script's `HEBREW_PATTERN`
`[֐-׿ְ-ּׁ-ׂׄ-ׇׅ]+` (the base Hebrew block plus point sub-ranges). -/
def isBHSHebrewChar (c : Char) : Bool :=
  (0x0590 ≤ c.toNat && c.toNat ≤ 0x05FF) ||
  (0x05B0 ≤ c.toNat && c.toNat ≤ 0x05BC) ||
  (0x05C1 ≤ c.toNat && c.toNat ≤ 0x05C2) ||
  (0x05C4 ≤ c.toNat && c.toNat ≤ 0x05C5) ||
  (c.toNat == 0x05C7)

/-- `book_patterns`: each regex `name|native` is the pair of its two literal
alternatives, with the target book id. -/
def book_patterns : List (List String × String) :=
  [(["genesis", "בראשית"], "genesis"),
   (["exodus", "שמות"], "exodus"),
   (["leviticus", "ויקרא"], "leviticus"),
   (["numbers", "במדבר"], "numbers"),
   (["deuteronomy", "דברים"], "deuteronomy")]

/-- Lowercase a string character-wise (Python `str.lower` on the ASCII/Hebrew
alphabet used here). -/
def lowerStr (s : String) : String := String.mk (s.toList.map Char.toLower)

/-- The book-header loop: first pattern whose alternative occurs in the line
(`re.search` with `IGNORECASE` of a literal alternation), with `break`. -/
def firstBookMatch (line : String) : Option String :=
  book_patterns.findSome? (fun pr =>
    if pr.1.any (fun w => containsSub w.toList (lowerStr line).toList) then some pr.2
    else none)

/-- Numeric value of a digit list (Python `int` of a digit string). -/
def natOfDigits (ds : List Char) : Nat :=
  ds.foldl (fun n c => 10 * n + (c.toNat - 48)) 0

/-- Match `(\d+):(\d+)` anchored at the head of `cs` (digits are ASCII, the
character domain of these PDF lines); `\d+` is greedy and no backtracking can
succeed (a shorter first run is followed by a digit, not `:`). -/
def matchVerseAt (cs : List Char) : Option (Nat × Nat) :=
  let d1 := cs.takeWhile Char.isDigit
  if d1.isEmpty then none
  else
    match cs.dropWhile Char.isDigit with
    | ':' :: rest2 =>
      let d2 := rest2.takeWhile Char.isDigit
      if d2.isEmpty then none else some (natOfDigits d1, natOfDigits d2)
    | _ => none

/-- `verse_pattern.search(line)`: leftmost match of `(\d+):(\d+)`. -/
def findVerseRef : List Char → Option (Nat × Nat)
  | [] => none
  | c :: rest =>
    match matchVerseAt (c :: rest) with
    | some r => some r
    | none => findVerseRef rest

/-- The scanner state of `parse_verses_from_text`: `current_book`,
`current_chapter`, `current_verse` and the `verses` dict (as an insertion
ordered association list, Python dict semantics). -/
structure LocState where
  book : String
  chapter : Nat
  verse : Nat
  verses : List (String × String)
deriving DecidableEq, Repr

/-- Initial state: `current_book='genesis', current_chapter=1, current_verse=0`. -/
def initState : LocState := ⟨"genesis", 1, 0, []⟩

/-- Python dict update `verses[key] = text` / `verses[key] += ' ' + text`:
append a new key at the end, extend an existing key in place. -/
def appendEntry (m : List (String × String)) (k txt : String) : List (String × String) :=
  if m.any (fun pr => pr.1 == k) then
    m.map (fun pr => if pr.1 == k then (pr.1, pr.2 ++ " " ++ txt) else pr)
  else m ++ [(k, txt)]

/-- `f"{current_book}-{current_chapter}-{current_verse}"`. -/
def verseKey (st : LocState) : String :=
  st.book ++ "-" ++ toString st.chapter ++ "-" ++ toString st.verse

/-- The book-header and `chapter:verse` transitions of one line (the first two
blocks of the loop body). -/
def stateAfterRefs (st : LocState) (line : String) : LocState :=
  let st1 :=
    match firstBookMatch line with
    | some b => { st with book := b, chapter := 1, verse := 0 }
    | none => st
  match findVerseRef line.toList with
  | some r => { st1 with chapter := r.1, verse := r.2 }
  | none => st1

/-- The full loop body of `parse_verses_from_text` for one line: transitions,
then Hebrew extraction and (conditional) accumulation. -/
def processLine (st : LocState) (line : String) : LocState :=
  let st2 := stateAfterRefs st line
  let hebrew_in_line := findallRuns isBHSHebrewChar line
  if !hebrew_in_line.isEmpty && decide (0 < st2.verse) then
    { st2 with
      verses := appendEntry st2.verses (verseKey st2)
        (String.intercalate " " hebrew_in_line) }
  else st2

/-- The scan over a line sequence from the initial state. -/
def scanLines (lines : List String) : LocState :=
  lines.foldl processLine initState

/-- `parse_verses_from_text(text)`: split on newline, scan, return the dict. -/
def parse_verses_from_text (text : String) : List (String × String) :=
  (scanLines (text.splitOn "\n")).verses

end BHSExtract

/-! ## `verify_ocr_accuracy.py` (the AccuracyVerifier) -/

namespace OCRVerify

/-- Character class of this script's `HEBREW_PATTERN`
(base Hebrew block plus presentation forms `FB1D-FB4F`). -/
def isVerifyHebrewChar (c : Char) : Bool :=
  (0x0590 ≤ c.toNat && c.toNat ≤ 0x05FF) || (0xFB1D ≤ c.toNat && c.toNat ≤ 0xFB4F)

/-- Character class of this script's `GREEK_PATTERN`. -/
def isVerifyGreekChar (c : Char) : Bool :=
  (0x0370 ≤ c.toNat && c.toNat ≤ 0x03FF) || (0x1F00 ≤ c.toNat && c.toNat ≤ 0x1FFF)

/-- Replace each maximal whitespace run by a single space
(`re.sub(r'\s+', ' ', ...)`); the flag records whether the previous
character was whitespace. -/
def collapseWsAux : Bool → List Char → List Char
  | _, [] => []
  | prevWs, c :: cs =>
    if c.isWhitespace then
      if prevWs then collapseWsAux true cs else ' ' :: collapseWsAux true cs
    else c :: collapseWsAux false cs

/-- Python `str.strip()`: drop whitespace from both ends. -/
def stripWsEnds (l : List Char) : List Char :=
  ((l.dropWhile Char.isWhitespace).reverse.dropWhile Char.isWhitespace).reverse

/-- `normalize_text`: remove Hebrew cantillation/points `0591-05C7`, remove
combining diacritics `0300-036F`, collapse whitespace, strip. -/
def normalize_text (s : String) : String :=
  let l1 := s.toList.filter (fun c => !(0x591 ≤ c.toNat && c.toNat ≤ 0x5C7))
  let l2 := l1.filter (fun c => !(0x300 ≤ c.toNat && c.toNat ≤ 0x36F))
  String.mk (stripWsEnds (collapseWsAux false l2))

/-- `calculate_similarity`, parameterized by the difflib sequence-matcher
ratio (standard-library code external to this repository). -/
def calculate_similarity (ratio : String → String → ℚ) (text1 text2 : String) : ℚ :=
  if text1.toList.isEmpty || text2.toList.isEmpty then 0
  else ratio (normalize_text text1) (normalize_text text2)

/-- `find_verse_in_ocr(ocr_text, verified_text, pattern)`, parameterized by
the sequence-matcher ratio used in the fallback branches. -/
def find_verse_in_ocr (ratio : String → String → ℚ) (ocr_text verified_text : String)
    (p : Char → Bool) : Bool × ℚ × String :=
  let ocr_segments := findallRuns p ocr_text
  let ocr_combined := String.intercalate " " ocr_segments
  if containsSub verified_text.toList ocr_combined.toList then
    (true, 1, verified_text)
  else
    match pySplitWs verified_text with
    | [] => (false, 0, "")
    | first_word :: _ =>
      if containsSub first_word.toList ocr_combined.toList then
        (true, calculate_similarity ratio verified_text ocr_combined, first_word)
      else
        let similarity := calculate_similarity ratio verified_text ocr_combined
        (decide ((1 : ℚ) / 2 < similarity), similarity, "")

/-- The exact-match rule as the spec words it: the NORMALIZED expected text is
a literal substring of the NORMALIZED joined OCR text. -/
def specNormalizedSubstring (ocr_text verified_text : String) (p : Char → Bool) : Bool :=
  containsSub (normalize_text verified_text).toList
    (normalize_text (String.intercalate " " (findallRuns p ocr_text))).toList

end OCRVerify

/-! ## `extract_scriptures_ocr.py` (ImagePipeline and ConfigExplorer) -/

namespace ScriptOCR

/-- The `OCRConfig` dataclass (the contrast factor is a Python float literal,
carried exactly as a rational). -/
structure OCRConfig where
  dpi : Nat
  enhance_contrast : ℚ
  sharpen : Bool
  denoise : Bool
  threshold : Bool
  tesseract_psm : Nat
  tesseract_oem : Nat
deriving DecidableEq, Repr

/-- The dataclass defaults: `OCRConfig()`. -/
def defaultConfig : OCRConfig :=
  { dpi := 300, enhance_contrast := 3 / 2, sharpen := true, denoise := true,
    threshold := false, tesseract_psm := 6, tesseract_oem := 3 }

/-- The PIL image operations `preprocess_image` calls; PIL is an external
library, so its operations are parameters of the embedding.  `point f m`
is `img.point(f, m)` (per-pixel map producing mode `m`). -/
structure PILOps (Img : Type) where
  mode : Img → String
  convertL : Img → Img
  contrastEnhance : ℚ → Img → Img
  sharpenFilter : Img → Img
  medianFilter3 : Img → Img
  point : (Nat → Nat) → String → Img → Img

/-- `preprocess_image(img, config)`: grayscale if not mode `L`; contrast
enhance when the factor is not `1.0`; sharpen, median-denoise, and
binarize-at-128-then-convert-back when the respective flags are set. -/
def preprocess_image {Img : Type} (ops : PILOps Img) (img : Img) (config : OCRConfig) : Img :=
  let img1 := if ops.mode img != "L" then ops.convertL img else img
  let img2 :=
    if config.enhance_contrast != 1 then ops.contrastEnhance config.enhance_contrast img1
    else img1
  let img3 := if config.sharpen then ops.sharpenFilter img2 else img2
  let img4 := if config.denoise then ops.medianFilter3 img3 else img3
  if config.threshold then
    ops.convertL (ops.point (fun x => if x < 128 then 0 else 255) "1" img4)
  else img4

/-- Spec step: grayscale conversion (always, if not already single-channel). -/
def grayscaleStep {Img : Type} (ops : PILOps Img) (img : Img) : Img :=
  if ops.mode img = "L" then img else ops.convertL img

/-- Spec step: contrast enhancement by the multiplicative factor; factor `1`
means the step is disabled and is a no-op. -/
def contrastStep {Img : Type} (ops : PILOps Img) (f : ℚ) (img : Img) : Img :=
  if f = 1 then img else ops.contrastEnhance f img

/-- Spec step: sharpen when enabled, otherwise a no-op. -/
def sharpenStep {Img : Type} (ops : PILOps Img) (flag : Bool) (img : Img) : Img :=
  if flag then ops.sharpenFilter img else img

/-- Spec step: median-filter denoise when enabled, otherwise a no-op. -/
def denoiseStep {Img : Type} (ops : PILOps Img) (flag : Bool) (img : Img) : Img :=
  if flag then ops.medianFilter3 img else img

/-- Spec step: optional binarization by the hard mid-range threshold `128`. -/
def binarizeStep {Img : Type} (ops : PILOps Img) (flag : Bool) (img : Img) : Img :=
  if flag then ops.convertL (ops.point (fun x => if x < 128 then 0 else 255) "1" img)
  else img

/-- The spec's pipeline: exactly the enabled steps, in the fixed order
grayscale → contrast → sharpen → denoise → binarize. -/
def preprocessSpec {Img : Type} (ops : PILOps Img) (config : OCRConfig) (img : Img) : Img :=
  binarizeStep ops config.threshold
    (denoiseStep ops config.denoise
      (sharpenStep ops config.sharpen
        (contrastStep ops config.enhance_contrast
          (grayscaleStep ops img))))

/-- The per-configuration scores recorded by `test_ocr_configs`. -/
structure ConfigResult where
  hebrew_count : Nat
  greek_count : Nat
  total_chars : Nat
deriving DecidableEq, Repr

/-- Python `max(iterable, key=key)`: scan keeping the current best, replacing
it only on a strictly greater key — so ties keep the earliest element. -/
def pyMax {α : Type} (key : α → Nat) : List α → Option α
  | [] => none
  | x :: xs => some (xs.foldl (fun best y => if key best < key y then y else best) x)

/-- `best_hebrew = max(results.items(), key=lambda x: x[1]['hebrew_count'])`. -/
def best_hebrew (results : List (String × ConfigResult)) : Option (String × ConfigResult) :=
  pyMax (fun x => x.2.hebrew_count) results

/-- `best_greek = max(results.items(), key=lambda x: x[1]['greek_count'])`. -/
def best_greek (results : List (String × ConfigResult)) : Option (String × ConfigResult) :=
  pyMax (fun x => x.2.greek_count) results

end ScriptOCR

/-! ## Helper lemmas -/

theorem containsSub_nil_left (h : List Char) : containsSub [] h = true := by
  cases h <;> simp [containsSub, startsWithL]

theorem startsWithL_nil_right (n : List Char) (hn : n ≠ []) : startsWithL n [] = false := by
  cases n with
  | nil => exact absurd rfl hn
  | cons a as => rfl

theorem containsSub_nil_right (n : List Char) (hn : n ≠ []) : containsSub n [] = false := by
  simpa [containsSub] using startsWithL_nil_right n hn

theorem runsAux_mem_ne_nil (p : Char → Bool) (cs : List Char) :
    ∀ acc s, s ∈ runsAux p cs acc → (acc = [] → s.toList ≠ []) ∧
      (acc ≠ [] → s.toList ≠ []) := by
  induction cs with
  | nil =>
    intro acc s hs
    cases acc with
    | nil => simp [runsAux] at hs
    | cons a as =>
      simp [runsAux] at hs
      subst hs
      constructor <;> intro _ <;> simp [String.toList]
  | cons c cs ih =>
    intro acc s hs
    simp only [runsAux] at hs
    by_cases hp : p c = true
    · rw [if_pos hp] at hs
      have := ih (c :: acc) s hs
      exact ⟨fun _ => this.2 (by simp), fun _ => this.2 (by simp)⟩
    · rw [if_neg hp] at hs
      cases acc with
      | nil =>
        simp only [List.isEmpty_nil, if_pos] at hs
        have := ih [] s hs
        exact ⟨fun _ => this.1 rfl, fun _ => this.1 rfl⟩
      | cons a as =>
        simp [List.mem_cons] at hs
        rcases hs with hs | hs
        · subst hs
          constructor <;> intro _ <;> simp [String.toList]
        · have := ih [] s hs
          exact ⟨fun _ => this.1 rfl, fun _ => this.1 rfl⟩

theorem findallRuns_mem_ne_nil (p : Char → Bool) (s : String) (r : String)
    (hr : r ∈ findallRuns p s) : r.toList ≠ [] :=
  (runsAux_mem_ne_nil p s.toList [] r hr).1 rfl

theorem findallRuns_of_empty (p : Char → Bool) (s : String) (h : s.toList.isEmpty = true) :
    findallRuns p s = [] := by
  unfold findallRuns
  cases hl : s.toList with
  | nil => rfl
  | cons c cs => rw [hl] at h; simp at h

/-! ## Theorems about the ScriptClassifier (`LangDetect`) -/

namespace LangDetect

theorem rangeTuple_eq (cs vs ce ve ch v : Nat) (hr : cs ≤ ce) :
    (if cs ≤ ch && ch ≤ ce then
        if ch == cs && decide (vs ≤ v) then true
        else if ch == ce && decide (v ≤ ve) then true
        else decide (cs < ch) && decide (ch < ce)
      else false)
    = ((decide (cs < ch) && decide (ch < ce)) || (ch == cs && decide (vs ≤ v)) ||
        (ch == ce && decide (v ≤ ve))) := by
  rw [Bool.eq_iff_iff]
  simp only [Bool.or_eq_true, Bool.and_eq_true, decide_eq_true_eq, beq_iff_eq,
    Bool.if_true_left, Bool.if_false_right]
  omega

theorem checkRanges_eq (rs : List (Nat × Nat × Nat × Nat)) (ch v : Nat)
    (hwf : ∀ r ∈ rs, r.1 ≤ r.2.2.1) :
    checkRangesCode rs ch v = checkRangesSpec rs ch v := by
  induction rs with
  | nil => rfl
  | cons r rs ih =>
    rcases r with ⟨cs, vs, ce, ve⟩
    simp only [checkRangesCode, checkRangesSpec, List.any_cons] at *
    rw [ih (fun r hm => hwf r (List.mem_cons_of_mem _ hm)),
      rangeTuple_eq cs vs ce ve ch v (hwf ⟨cs, vs, ce, ve⟩ (List.mem_cons_self _ _))]

theorem table_wf : ∀ pr ∈ ARAMAIC_PASSAGES, ∀ r ∈ pr.2.chapters, r.1 ≤ r.2.2.1 := by
  intro pr hpr r hr
  simp only [ARAMAIC_PASSAGES, List.mem_cons, List.not_mem_nil, or_false] at hpr
  rcases hpr with h | h | h | h <;> subst h <;>
    simp_all [List.mem_singleton, List.not_mem_nil]

/-- C2: for every book and chapter ≥ 1, verse ≥ 1, `is_aramaic_passage`
agrees with the spec's rule: `(chapter, verse)` in the book's verse set, or
inside a chapter range `[chStart,vStart]..[chEnd,vEnd]` with: any chapter
strictly between counts; `chapter = chStart` counts iff `verse ≥ vStart`;
`chapter = chEnd` counts iff `verse ≤ vEnd`. -/
theorem c2_is_known_passage_matches_spec (book : String) (chapter verse : Nat)
    (_hch : 1 ≤ chapter) (_hv : 1 ≤ verse) :
    is_aramaic_passage book chapter verse = aramaicPassageSpec book chapter verse := by
  cases h : lookupPassage book with
  | none => simp [is_aramaic_passage, aramaicPassageSpec, h]
  | some info =>
    have hwf : ∀ r ∈ info.chapters, r.1 ≤ r.2.2.1 := by
      have hfind : ∃ pr, ARAMAIC_PASSAGES.find?
          (fun pr => pr.1 == bookMap (normalizeBook book)) = some pr ∧ pr.2 = info := by
        simpa [lookupPassage, Option.map_eq_some'] using h
      rcases hfind with ⟨pr, hf, hpr⟩
      have := List.mem_of_find?_eq_some hf
      exact hpr ▸ table_wf pr this
    simp [is_aramaic_passage, aramaicPassageSpec, h, checkRanges_eq _ _ _ hwf]

/-- C2 witness: the equivalence at Ezra 4:8, plus the claim's boundary
instances (Ezra 4:8 in, 4:7 out; Genesis 31:47 in, 31:46 out). -/
theorem c2_is_known_passage_matches_spec_witness :
    ((1 ≤ 4 ∧ 1 ≤ 8) ∧
      is_aramaic_passage "ezra" 4 8 = aramaicPassageSpec "ezra" 4 8) ∧
    is_aramaic_passage "ezra" 4 8 = true ∧
    is_aramaic_passage "ezra" 4 7 = false ∧
    is_aramaic_passage "genesis" 31 47 = true ∧
    is_aramaic_passage "genesis" 31 46 = false :=
  ⟨⟨⟨by decide, by decide⟩,
    c2_is_known_passage_matches_spec "ezra" 4 8 (by decide) (by decide)⟩,
   by decide, by decide, by decide, by decide⟩

/-- C1: whenever the three hints are supplied (Python-truthy) and name a known
Aramaic passage, and the text has at least one Hebrew-block run,
`detect_language` classifies the text as Aramaic with `matches` equal to the
list of Hebrew-script runs, confidence exactly `0.95`, and
`is_known_aramaic_passage = true`. -/
theorem c1_known_passage_classifies_aramaic (s : String) (book : Option String)
    (c v : Option Nat)
    (hknown : is_known_hint book c v = true)
    (hheb : findallRuns isHebrewChar s ≠ []) :
    (detect_language (some s) book c v).language = "aramaic" ∧
    (detect_language (some s) book c v).matchesList = findallRuns isHebrewChar s ∧
    (detect_language (some s) book c v).confidence = 95 / 100 ∧
    (detect_language (some s) book c v).is_known_aramaic_passage = true := by
  have hne : s.toList.isEmpty = false := by
    cases he : s.toList.isEmpty
    · rfl
    · exact absurd (findallRuns_of_empty isHebrewChar s he) hheb
  have hpos : 0 < (findallRuns isHebrewChar s).length := List.length_pos.mpr hheb
  have hd : ¬ s.data = [] := fun h =>
    hheb (findallRuns_of_empty _ _ (by simp [String.toList, h]))
  simp [detect_language, hne, hknown, hpos, hd]

/-- C1 witness: the Daniel 2:4 example of the claim. -/
theorem c1_known_passage_classifies_aramaic_witness :
    is_known_hint (some "daniel") (some 2) (some 4) = true ∧
    findallRuns isHebrewChar "מַלְכָּא לְעָלְמִין חֱיִי" ≠ [] ∧
    ((detect_language (some "מַלְכָּא לְעָלְמִין חֱיִי") (some "daniel") (some 2) (some 4)).language
        = "aramaic" ∧
      (detect_language (some "מַלְכָּא לְעָלְמִין חֱיִי") (some "daniel") (some 2)
          (some 4)).matchesList = findallRuns isHebrewChar "מַלְכָּא לְעָלְמִין חֱיִי" ∧
      (detect_language (some "מַלְכָּא לְעָלְמִין חֱיִי") (some "daniel") (some 2)
          (some 4)).confidence = 95 / 100 ∧
      (detect_language (some "מַלְכָּא לְעָלְמִין חֱיִי") (some "daniel") (some 2)
          (some 4)).is_known_aramaic_passage = true) :=
  ⟨by decide, by decide,
    c1_known_passage_classifies_aramaic "מַלְכָּא לְעָלְמִין חֱיִי" (some "daniel") (some 2)
      (some 4) (by decide) (by decide)⟩

/-- C7: empty input (and `none`, standing for Python `None` or any non-string
value) yields the unknown span: language `unknown`, confidence `0`, empty
match list, and all three script counters zero; the embedded function is
total, so no input raises. -/
theorem c7_degenerate_input_unknown (book : Option String) (c v : Option Nat) :
    detect_language none book c v = unknownSpan ∧
    detect_language (some "") book c v = unknownSpan ∧
    unknownSpan.language = "unknown" ∧ unknownSpan.confidence = 0 ∧
    unknownSpan.matchesList = [] ∧ unknownSpan.hebrew_count = 0 ∧
    unknownSpan.greek_count = 0 ∧ unknownSpan.aramaic_count = 0 :=
  ⟨rfl, rfl, rfl, rfl, rfl, rfl, rfl, rfl⟩

/-- C10: `aramaic_count` is not an independent run count: it is `0` whenever
the returned language is not `aramaic`; it equals `hebrew_count` when the
known-passage rule or the vocabulary rule fires; and it equals the number of
Hebrew runs plus Imperial-Aramaic runs only when the Imperial-Aramaic rule
fires. -/
theorem c10_aramaic_count_is_derived (text : Option String) (book : Option String)
    (c v : Option Nat) :
    ((detect_language text book c v).language ≠ "aramaic" →
      (detect_language text book c v).aramaic_count = 0) ∧
    (∀ s, text = some s →
      (is_known_hint book c v = true → 0 < (findallRuns isHebrewChar s).length →
        (detect_language text book c v).aramaic_count =
          (detect_language text book c v).hebrew_count) ∧
      (¬ (is_known_hint book c v = true ∧ 0 < (findallRuns isHebrewChar s).length) →
        0 < (findallRuns isImperialAramaicChar s).length →
        (detect_language text book c v).aramaic_count =
          (findallRuns isHebrewChar s).length +
            (findallRuns isImperialAramaicChar s).length) ∧
      (¬ (is_known_hint book c v = true ∧ 0 < (findallRuns isHebrewChar s).length) →
        (findallRuns isImperialAramaicChar s).length = 0 →
        (detect_aramaic_vocabulary s).1 = true ∧ 0 < (findallRuns isHebrewChar s).length ∧
          (1 : ℚ) / 2 < (detect_aramaic_vocabulary s).2.2 →
        (detect_language text book c v).aramaic_count =
          (detect_language text book c v).hebrew_count)) := by
  rcases text with _ | s
  · exact ⟨fun _ => rfl, fun s hs => by cases hs⟩
  · by_cases hd : s.data = []
    · have he : detect_language (some s) book c v = unknownSpan := by
        simp [detect_language, hd]
      have hru : ∀ p, findallRuns p s = [] :=
        fun p => findallRuns_of_empty p s (by simp [String.toList, hd])
      refine ⟨fun _ => by simp [he, unknownSpan], ?_⟩
      rintro s' heq
      cases heq
      refine ⟨fun _ h => absurd h (by simp [hru]), fun _ h => absurd h (by simp [hru]),
        fun _ _ h => absurd h.2.1 (by simp [hru])⟩
    · constructor
      · intro hlang
        revert hlang
        simp [detect_language, hd]
        split_ifs <;> simp_all
      · rintro s' heq
        cases heq
        refine ⟨?_, ?_, ?_⟩
        · intro hk hhl
          simp [detect_language, hd]
          split_ifs <;> simp_all
        · intro hnk hil
          simp [detect_language, hd]
          split_ifs <;> simp_all
        · rintro hnk hil0 ⟨hv, hhl, hvc⟩
          simp [detect_language, hd]
          split_ifs <;> simp_all

/-- C10 witness: a pure-Greek text is classified `greek`, and the theorem's
first conjunct gives `aramaic_count = 0` there. -/
theorem c10_aramaic_count_is_derived_witness :
    (detect_language (some "λογος") none none none).language ≠ "aramaic" ∧
    (detect_language (some "λογος") none none none).aramaic_count = 0 :=
  ⟨by decide,
    (c10_aramaic_count_is_derived (some "λογος") none none none).1 (by decide)⟩

end LangDetect

/-! ## Theorems about the VerseLocator (`BHSExtract`) -/

namespace BHSExtract

theorem stateAfterRefs_verses (st : LocState) (line : String) :
    (stateAfterRefs st line).verses = st.verses := by
  unfold stateAfterRefs
  cases firstBookMatch line <;> cases findVerseRef line.toList <;> rfl

/-- C5 counterexample: the claim says no transition ever decreases
`current_chapter`/`current_verse`, but the single transition on the line
`"1:1"` after `"2:2"` takes the scanner from chapter 2, verse 2 to chapter 1,
verse 1. -/
theorem c5_counterexample_decreasing_transition :
    (scanLines ["2:2"]).chapter = 2 ∧ (scanLines ["2:2"]).verse = 2 ∧
    scanLines ["2:2", "1:1"] = processLine (scanLines ["2:2"]) "1:1" ∧
    (scanLines ["2:2", "1:1"]).chapter = 1 ∧ (scanLines ["2:2", "1:1"]).verse = 1 :=
  ⟨by decide, by decide, rfl, by decide, by decide⟩

/-- C5 amended: a line carrying neither a book-header match nor a
`chapter:verse` match leaves `current_book`, `current_chapter` and
`current_verse` unchanged; boundary lines set the counters to the matched
numbers, which may decrease them (the scan is single-pass with no lookahead
or backtracking, but not monotone). -/
theorem c5_amended_no_boundary_no_change (st : LocState) (line : String)
    (hb : firstBookMatch line = none) (hv : findVerseRef line.toList = none) :
    (processLine st line).book = st.book ∧ (processLine st line).chapter = st.chapter ∧
    (processLine st line).verse = st.verse := by
  have hv' : findVerseRef line.data = none := hv
  have h2 : stateAfterRefs st line = st := by simp [stateAfterRefs, hb, hv, hv']
  by_cases hc : (!(findallRuns isBHSHebrewChar line).isEmpty && decide (0 < st.verse)) = true <;>
    simp [processLine, h2, hc]

/-- C5 witness: a pure-Hebrew text line is no boundary and preserves the
initial state's coordinates. -/
theorem c5_amended_no_boundary_no_change_witness :
    firstBookMatch "אוֹר" = none ∧ findVerseRef ("אוֹר" : String).toList = none ∧
    ((processLine initState "אוֹר").book = initState.book ∧
      (processLine initState "אוֹר").chapter = initState.chapter ∧
      (processLine initState "אוֹר").verse = initState.verse) :=
  ⟨by decide, by decide,
    c5_amended_no_boundary_no_change initState "אוֹר" (by decide) (by decide)⟩

/-- C6: a line with at least one Hebrew-script run while `current_verse > 0`
(after this line's own boundary transitions) appends the space-joined runs to
the entry for `book-chapter-verse` (creating it if absent, else appending
with a single space); a line with no script text, or scanned with
`current_verse = 0`, changes no entry; and the claim's five-line example
yields exactly `genesis-1-1 ↦ A` and `genesis-1-2 ↦ B`. -/
theorem c6_verse_attribution :
    (∀ st line, findallRuns isBHSHebrewChar line ≠ [] →
      0 < (stateAfterRefs st line).verse →
      processLine st line = { stateAfterRefs st line with
        verses := appendEntry (stateAfterRefs st line).verses
          (verseKey (stateAfterRefs st line))
          (String.intercalate " " (findallRuns isBHSHebrewChar line)) }) ∧
    (∀ st line, findallRuns isBHSHebrewChar line = [] ∨ (stateAfterRefs st line).verse = 0 →
      (processLine st line).verses = st.verses) ∧
    (scanLines ["Genesis", "1:1", "אוֹר", "1:2", "טוֹב"]).verses =
      [("genesis-1-1", "אוֹר"), ("genesis-1-2", "טוֹב")] := by
  refine ⟨?_, ?_, by decide⟩
  · intro st line hr hv
    have hc : (!(findallRuns isBHSHebrewChar line).isEmpty &&
        decide (0 < (stateAfterRefs st line).verse)) = true := by
      simp [List.isEmpty_iff, hr, hv]
    simp [processLine, hc]
  · intro st line h
    have hc : (!(findallRuns isBHSHebrewChar line).isEmpty &&
        decide (0 < (stateAfterRefs st line).verse)) = false := by
      rcases h with h | h <;> simp [h, List.isEmpty_iff]
    simp [processLine, hc, stateAfterRefs_verses]

/-- C6 witness: appending a Hebrew line in a state positioned at
genesis 1:1. -/
theorem c6_verse_attribution_witness :
    findallRuns isBHSHebrewChar "אוֹר" ≠ [] ∧
    0 < (stateAfterRefs ⟨"genesis", 1, 1, []⟩ "אוֹר").verse ∧
    processLine ⟨"genesis", 1, 1, []⟩ "אוֹר" =
      { stateAfterRefs ⟨"genesis", 1, 1, []⟩ "אוֹר" with
        verses := appendEntry (stateAfterRefs ⟨"genesis", 1, 1, []⟩ "אוֹר").verses
          (verseKey (stateAfterRefs ⟨"genesis", 1, 1, []⟩ "אוֹר"))
          (String.intercalate " " (findallRuns isBHSHebrewChar "אוֹר")) } :=
  ⟨by decide, by decide,
    c6_verse_attribution.1 ⟨"genesis", 1, 1, []⟩ "אוֹר" (by decide) (by decide)⟩

end BHSExtract

/-! ## Theorems about the AccuracyVerifier (`OCRVerify`) -/

namespace OCRVerify

/-- C3 counterexample: for an EMPTY expected text the claim predicts
`found = false, similarity = 0.0`, but the code's first check is Python's
`verified_text in ocr_combined`, and the empty string is a substring of
everything, so the result is `found = true, similarity = 1.0`. -/
theorem c3_counterexample_empty_expected :
    find_verse_in_ocr (fun _ _ => 0) "אבג" "" isVerifyHebrewChar = (true, 1, "") := by
  decide

/-- C3 amended: the per-verse check never raises (the embedding is total);
a verse whose extracted OCR text is empty and whose expected text is
nonempty yields `found = false, similarity = 0`; a verse whose expected text
is empty yields `found = true, similarity = 1` (the empty string is a
substring of any string). -/
theorem c3_amended_empty_cases (ratio : String → String → ℚ) (p : Char → Bool)
    (ocr verified : String) :
    (findallRuns p ocr = [] → verified.toList ≠ [] →
      find_verse_in_ocr ratio ocr verified p = (false, 0, "")) ∧
    (verified.toList = [] → find_verse_in_ocr ratio ocr verified p = (true, 1, verified)) := by
  constructor
  · intro hseg hne
    have hc1 : containsSub verified.toList (String.intercalate " " ([] : List String)).toList
        = false := containsSub_nil_right _ hne
    simp only [find_verse_in_ocr, hseg, hc1, Bool.false_eq_true, if_false]
    cases hsp : pySplitWs verified with
    | nil => rfl
    | cons w ws =>
      have hw : w.toList ≠ [] := by
        apply findallRuns_mem_ne_nil (fun c => !c.isWhitespace) verified
        rw [show findallRuns (fun c => !c.isWhitespace) verified = pySplitWs verified from rfl,
          hsp]
        exact List.mem_cons_self w ws
      have hc2 : containsSub w.toList (String.intercalate " " ([] : List String)).toList
          = false := containsSub_nil_right _ hw
      have hsim : calculate_similarity ratio verified
          (String.intercalate " " ([] : List String)) = 0 := by
        simp [calculate_similarity, String.intercalate]
      simp only [hc2, Bool.false_eq_true, if_false, hsim]
      rw [decide_eq_false (by norm_num : ¬ ((1 : ℚ) / 2 < 0))]
  · intro hemp
    have hc : containsSub verified.toList
        (String.intercalate " " (findallRuns p ocr)).toList = true := by
      rw [hemp]; exact containsSub_nil_left _
    simp only [find_verse_in_ocr, hc, if_true]

/-- C3 witness: empty OCR text against a nonempty expected verse. -/
theorem c3_amended_empty_cases_witness :
    findallRuns isVerifyHebrewChar "" = [] ∧ ("א" : String).toList ≠ [] ∧
    find_verse_in_ocr (fun _ _ => 0) "" "א" isVerifyHebrewChar = (false, 0, "") :=
  ⟨by decide, by decide,
    (c3_amended_empty_cases (fun _ _ => 0) isVerifyHebrewChar "" "א").1 (by decide) (by decide)⟩

/-- C4 counterexample: with `ocr_text = ""` and `expected_text = " "`, the
NORMALIZED expected text (the empty string) is a literal substring of the
normalized joined OCR text, yet the code returns
`found = false, similarity = 0` — because its exact-match check runs on the
RAW texts, before any normalization. -/
theorem c4_counterexample_normalized_vs_raw :
    specNormalizedSubstring "" " " isVerifyHebrewChar = true ∧
    find_verse_in_ocr (fun _ _ => 0) "" " " isVerifyHebrewChar = (false, 0, "") := by
  decide

/-- C4 amended: the verifier joins the target-script runs of `ocr_text` with
single spaces into `ocr_combined`, and if the RAW (un-normalized)
`expected_text` is a literal substring of the raw `ocr_combined` it returns
`found = true, similarity = 1.0`; normalization is applied only inside the
similarity computation of the fallback branches. -/
theorem c4_amended_raw_substring (ratio : String → String → ℚ) (p : Char → Bool)
    (ocr verified : String)
    (h : containsSub verified.toList
        (String.intercalate " " (findallRuns p ocr)).toList = true) :
    find_verse_in_ocr ratio ocr verified p = (true, 1, verified) := by
  simp only [find_verse_in_ocr, h, if_true]

/-- C4 witness: an expected verse appearing verbatim in the OCR text. -/
theorem c4_amended_raw_substring_witness :
    containsSub ("אב" : String).toList
      (String.intercalate " " (findallRuns isVerifyHebrewChar "אב")).toList = true ∧
    find_verse_in_ocr (fun _ _ => 0) "אב" "אב" isVerifyHebrewChar = (true, 1, "אב") :=
  ⟨by decide, c4_amended_raw_substring (fun _ _ => 0) isVerifyHebrewChar "אב" "אב" (by decide)⟩

end OCRVerify

/-! ## Theorems about ImagePipeline and ConfigExplorer (`ScriptOCR`) -/

namespace ScriptOCR

/-- C9: `preprocess_image` is exactly the spec's pipeline — grayscale
(always, when not already mode `L`), then contrast by the configured factor,
then sharpen, then median denoise, then binarization at the mid-range
threshold, where each disabled step is the identity. -/
theorem c9_preprocess_is_spec_pipeline {Img : Type} (ops : PILOps Img) (img : Img)
    (config : OCRConfig) :
    preprocess_image ops img config = preprocessSpec ops config img := by
  unfold preprocess_image preprocessSpec grayscaleStep contrastStep sharpenStep denoiseStep
    binarizeStep
  by_cases h1 : ops.mode img = "L" <;> by_cases h2 : config.enhance_contrast = 1 <;>
    simp [h1, h2]

theorem pyMax_foldl_spec {α : Type} (key : α → Nat) (xs : List α) (b : α) :
    ∃ m₁ m₂,
      b :: xs = m₁ ++ (xs.foldl (fun best y => if key best < key y then y else best) b) :: m₂ ∧
      (∀ y ∈ m₁, key y < key (xs.foldl (fun best y => if key best < key y then y else best) b)) ∧
      (∀ y ∈ m₂, key y ≤ key (xs.foldl (fun best y => if key best < key y then y else best) b)) := by
  induction xs generalizing b with
  | nil => exact ⟨[], [], rfl, by simp, by simp⟩
  | cons x xs ih =>
    simp only [List.foldl_cons]
    by_cases h : key b < key x
    · rw [if_pos h]
      obtain ⟨m₁, m₂, heq, hlt, hle⟩ := ih x
      refine ⟨b :: m₁, m₂, ?_, ?_, hle⟩
      · rw [List.cons_append, ← heq]
      · intro y hy
        have hxr : key x ≤
            key (xs.foldl (fun best y => if key best < key y then y else best) x) := by
          cases m₁ with
          | nil =>
            simp only [List.nil_append] at heq
            injection heq with h1 _
            rw [← h1]
          | cons a l =>
            simp only [List.cons_append] at heq
            injection heq with h1 _
            exact le_of_lt (h1 ▸ hlt a (List.mem_cons_self a l))
        rcases List.mem_cons.mp hy with rfl | hy
        · exact lt_of_lt_of_le h hxr
        · exact hlt y hy
    · rw [if_neg h]
      obtain ⟨m₁, m₂, heq, hlt, hle⟩ := ih b
      cases m₁ with
      | nil =>
        simp only [List.nil_append] at heq
        injection heq with h1 h2
        refine ⟨[], x :: xs, ?_, by simp, ?_⟩
        · rw [List.nil_append, ← h1]
        · intro y hy
          rcases List.mem_cons.mp hy with rfl | hy
          · exact le_trans (Nat.le_of_not_lt h) (le_of_eq (congrArg key h1))
          · exact h2 ▸ hle y (h2 ▸ hy)
      | cons a l =>
        simp only [List.cons_append] at heq
        injection heq with h1 h2
        refine ⟨b :: x :: l, m₂, ?_, ?_, hle⟩
        · rw [List.cons_append, List.cons_append, ← h2]
        · intro y hy
          have hbr : key b <
              key (xs.foldl (fun best y => if key best < key y then y else best) b) :=
            h1 ▸ hlt a (List.mem_cons_self a l)
          rcases List.mem_cons.mp hy with rfl | hy
          · exact hbr
          · rcases List.mem_cons.mp hy with rfl | hy
            · exact lt_of_le_of_lt (Nat.le_of_not_lt h) hbr
            · exact hlt y (List.mem_cons_of_mem a hy)

theorem pyMax_spec {α : Type} (key : α → Nat) (l : List α) (h : l ≠ []) :
    ∃ b m₁ m₂, pyMax key l = some b ∧ l = m₁ ++ b :: m₂ ∧
      (∀ y ∈ l, key y ≤ key b) ∧ (∀ y ∈ m₁, key y < key b) := by
  cases l with
  | nil => exact absurd rfl h
  | cons x xs =>
    obtain ⟨m₁, m₂, heq, hlt, hle⟩ := pyMax_foldl_spec key xs x
    refine ⟨_, m₁, m₂, rfl, heq, ?_, hlt⟩
    intro y hy
    rw [heq] at hy
    rcases List.mem_append.mp hy with hy | hy
    · exact le_of_lt (hlt y hy)
    · rcases List.mem_cons.mp hy with rfl | hy
      · exact le_refl _
      · exact hle y hy

/-- C8: for every nonempty candidate list, the configuration selected for a
target script attains the maximum target-script count (`hebrew_count` for
Hebrew, `greek_count` for Greek), and it is the first-listed candidate
attaining that maximum (every earlier candidate scores strictly less). -/
theorem c8_best_config_argmax_first_tie (results : List (String × ConfigResult))
    (h : results ≠ []) :
    (∃ b m₁ m₂, best_hebrew results = some b ∧ results = m₁ ++ b :: m₂ ∧
      (∀ y ∈ results, y.2.hebrew_count ≤ b.2.hebrew_count) ∧
      (∀ y ∈ m₁, y.2.hebrew_count < b.2.hebrew_count)) ∧
    (∃ b m₁ m₂, best_greek results = some b ∧ results = m₁ ++ b :: m₂ ∧
      (∀ y ∈ results, y.2.greek_count ≤ b.2.greek_count) ∧
      (∀ y ∈ m₁, y.2.greek_count < b.2.greek_count)) := by
  constructor
  · obtain ⟨b, m₁, m₂, h1, h2, h3, h4⟩ := pyMax_spec (fun x => x.2.hebrew_count) results h
    exact ⟨b, m₁, m₂, h1, h2, h3, h4⟩
  · obtain ⟨b, m₁, m₂, h1, h2, h3, h4⟩ := pyMax_spec (fun x => x.2.greek_count) results h
    exact ⟨b, m₁, m₂, h1, h2, h3, h4⟩

/-- C8 witness: a two-candidate list with a Hebrew-count tie — the
first-listed candidate wins for Hebrew, the strict maximum wins for Greek. -/
theorem c8_best_config_argmax_first_tie_witness :
    ([(("default" : String), (⟨5, 2, 10⟩ : ConfigResult)), ("high_contrast", ⟨5, 7, 12⟩)] ≠ []) ∧
    best_hebrew [("default", ⟨5, 2, 10⟩), ("high_contrast", ⟨5, 7, 12⟩)] =
      some ("default", ⟨5, 2, 10⟩) ∧
    best_greek [("default", ⟨5, 2, 10⟩), ("high_contrast", ⟨5, 7, 12⟩)] =
      some ("high_contrast", ⟨5, 7, 12⟩) ∧
    ((∃ b m₁ m₂, best_hebrew [("default", ⟨5, 2, 10⟩), ("high_contrast", ⟨5, 7, 12⟩)] = some b ∧
        [("default", ⟨5, 2, 10⟩), ("high_contrast", ⟨5, 7, 12⟩)] = m₁ ++ b :: m₂ ∧
        (∀ y ∈ [(("default" : String), (⟨5, 2, 10⟩ : ConfigResult)),
            ("high_contrast", ⟨5, 7, 12⟩)], y.2.hebrew_count ≤ b.2.hebrew_count) ∧
        (∀ y ∈ m₁, y.2.hebrew_count < b.2.hebrew_count)) ∧
      (∃ b m₁ m₂, best_greek [("default", ⟨5, 2, 10⟩), ("high_contrast", ⟨5, 7, 12⟩)] = some b ∧
        [("default", ⟨5, 2, 10⟩), ("high_contrast", ⟨5, 7, 12⟩)] = m₁ ++ b :: m₂ ∧
        (∀ y ∈ [(("default" : String), (⟨5, 2, 10⟩ : ConfigResult)),
            ("high_contrast", ⟨5, 7, 12⟩)], y.2.greek_count ≤ b.2.greek_count) ∧
        (∀ y ∈ m₁, y.2.greek_count < b.2.greek_count))) :=
  ⟨by decide, by decide, by decide,
    c8_best_config_argmax_first_tie
      [("default", ⟨5, 2, 10⟩), ("high_contrast", ⟨5, 7, 12⟩)] (by decide)⟩

end ScriptOCR
